import Mathlib

/-
Verification development for the GrailedAgent repository.

The repository's executable logic lives in three Python tool functions:
`validate_grailed_metadata` and `expand_image_paths` (grailed_agent.py) and
`validate_listings_file` (test_grailed_agent.py).  The page-state classifier
and the listing-submission pipeline are described by the repository only as
prompt text handed to a language model; where a claim is about those, the
corresponding definition is modelled from the specification and marked so in
its doc comment.

JSON-like Python values are embedded as the inductive type `Val`; Python
dicts become association lists (`Metadata`).  Filesystem-dependent
primitives (`Path.exists`, `expanduser`, `resolve`) are taken as explicit
function parameters, so every definition stays a pure, executable Lean
function of its inputs.
-/

set_option autoImplicit false

namespace Grailed

/-- Embedding of the JSON-like Python values that flow through the tools:
strings, integers, booleans, `None`, and lists. -/
inductive Val where
  | str (s : String)
  | int (n : Int)
  | bool (b : Bool)
  | null
  | list (xs : List Val)
  deriving Repr

/-- A Python dict with string keys, embedded as an association list
(first matching key wins, as dict keys are unique in CPython). -/
abbrev Metadata := List (String × Val)

/-- Lookup of a key in a dict: `metadata[field]` / `field in metadata`. -/
def lookupField (m : Metadata) (f : String) : Option Val :=
  match m with
  | [] => none
  | (k, v) :: rest => if k = f then some v else lookupField rest f

/-- The final path component, as computed by `pathlib.PurePath.name`:
trailing slashes are dropped, then everything after the last `/` is kept. -/
def pyName (p : String) : String :=
  let rev := (p.toList.reverse).dropWhile (fun c => c = '/')
  String.mk ((rev.takeWhile (fun c => c ≠ '/')).reverse)

/-- The file extension as computed by `pathlib.PurePath.suffix`: the part of
the name from its last dot, provided that dot is neither the first nor the
last character of the name; otherwise the empty string. -/
def pySuffix (p : String) : String :=
  let cs := (pyName p).toList
  match (cs.reverse).findIdx? (fun c => c = '.') with
  | none => ""
  | some j =>
    let i := cs.length - 1 - j
    if 0 < i ∧ i + 1 < cs.length then String.mk (cs.drop i) else ""

/-- The extension whitelist `['.jpg', '.jpeg']` from
`validate_grailed_metadata` (grailed_agent.py line 111). -/
def allowed_suffixes : List String := [".jpg", ".jpeg"]

/-- ASCII lowercasing, modelling Python `str.lower()` on the
ASCII-only extension strings compared here. -/
def lowerStr (s : String) : String := String.mk (s.toList.map Char.toLower)

/-- One iteration of the image-format loop in `validate_grailed_metadata`
(lines 109-112): `Path(image_path).suffix.lower()` must be `.jpg`/`.jpeg`,
otherwise `ValueError` is raised.  A non-string element makes the `Path`
constructor raise `TypeError`. -/
def checkOneImage (v : Val) : Except String Unit :=
  match v with
  | .str p =>
    if lowerStr (pySuffix p) ∈ allowed_suffixes then .ok ()
    else .error ("Invalid image format: " ++ pySuffix p ++
      ". Only JPG/JPEG files are supported for Gemini API.")
  | _ => .error "TypeError: argument should be a str or an os.PathLike object"

/-- The image-format loop over the elements of `metadata[..]`, stopping at
the first raised exception. -/
def checkImages : List Val → Except String Unit
  | [] => .ok ()
  | v :: rest =>
    match checkOneImage v with
    | .error e => .error e
    | .ok _ => checkImages rest

/-- Iterating `for image_path in metadata[..]`: over a Python list this
visits its elements; over a string it visits one-character strings; any
other value raises `TypeError` (not iterable). -/
def checkImagePaths (v : Val) : Except String Unit :=
  match v with
  | .list xs => checkImages xs
  | .str s => checkImages ((s.toList).map (fun c => Val.str (String.mk [c])))
  | _ => .error "TypeError: object is not iterable"

/-- The required-field list of `validate_grailed_metadata`
(grailed_agent.py lines 95-98). -/
def required_fields : List String :=
  ["department", "category", "sub_category", "designer", "item_name",
   "size", "color", "condition", "price", "description", "image_paths"]

/-- The optional-field list of `validate_grailed_metadata` (line 115). -/
def optional_fields : List String :=
  ["accept_offers", "smart_pricing", "country_of_origin"]

/-- One iteration of the required-field loop (lines 101-105): a present
field is copied into `validated`; an absent one appends the printed warning
line to the stdout trace. -/
def vgStep (metadata : Metadata) (acc : Metadata × List String)
    (field : String) : Metadata × List String :=
  match lookupField metadata field with
  | some v => (acc.1 ++ [(field, v)], acc.2)
  | none => (acc.1, acc.2 ++ ["⚠️  Missing required field: " ++ field])

/-- One iteration of the optional-field loop (lines 116-118). -/
def optStep (metadata : Metadata) (vs : Metadata) (field : String) :
    Metadata :=
  match lookupField metadata field with
  | some v => vs ++ [(field, v)]
  | none => vs

/-- The image-format block of `validate_grailed_metadata` (lines 107-112):
run only when `image_paths` is present. -/
def imageCheck (metadata : Metadata) : Except String Unit :=
  match lookupField metadata "image_paths" with
  | some v => checkImagePaths v
  | none => .ok ()

/-- Embedding of `validate_grailed_metadata` (grailed_agent.py lines
92-120).  The first component is the function's outcome — `ok validated`
normally, `error e` when the image-format check raises `ValueError` (or the
loop raises `TypeError`); the second component is the trace of `print`
calls the function makes (its only side effect: one warning line per
missing required field, emitted before the image check runs). -/
def validate_grailed_metadata (metadata : Metadata) :
    Except String Metadata × List String :=
  let acc := required_fields.foldl (vgStep metadata) ([], [])
  match imageCheck metadata with
  | .error e => (.error e, acc.2)
  | .ok _ => (.ok (optional_fields.foldl (optStep metadata) acc.1), acc.2)

/-- The per-item validation record built by `validate_listings_file`
(test_grailed_agent.py lines 64-70). -/
structure ItemResult where
  index : Nat
  valid : Bool
  errors : List String
  warnings : List String
  missing_metadata : List String
  deriving Repr

/-- The required-field list of `validate_listings_file` (line 73). -/
def test_required_fields : List String := ["image_paths", "price"]

/-- The metadata-field list of `validate_listings_file` (lines 87-90). -/
def metadata_fields : List String :=
  ["department", "category", "sub_category", "designer",
   "item_name", "size", "color", "condition", "description"]

/-- One iteration of the required-field loop (lines 74-77): an absent field
appends an error and clears `valid`. -/
def requiredStep (item : Metadata) (r : ItemResult) (field : String) :
    ItemResult :=
  if (lookupField item field).isSome then r
  else { r with errors := r.errors ++ ["Missing required field: " ++ field],
                valid := false }

/-- One iteration of the image-path loop (lines 81-84): a path whose
`os.path.expanduser` expansion does not exist appends a warning. -/
def imageStep (expand : String → String) (fileExists : String → Bool)
    (r : ItemResult) (p : String) : ItemResult :=
  if fileExists (expand p) then r
  else { r with warnings := r.warnings ++ ["Image file not found: " ++ p] }

/-- One iteration of the metadata loop (lines 91-93): a field that is
absent or `None` is appended to `missing_metadata`. -/
def metadataStep (item : Metadata) (r : ItemResult) (field : String) :
    ItemResult :=
  match lookupField item field with
  | none => { r with missing_metadata := r.missing_metadata ++ [field] }
  | some .null => { r with missing_metadata := r.missing_metadata ++ [field] }
  | some _ => r

/-- Collect the values visited by `for img_path in item[..]` as strings:
a list yields its elements (a non-string element makes `os.path.expanduser`
raise `TypeError` when the loop reaches it), a string yields its
characters, and any other value is not iterable. -/
def iterPaths (v : Val) : Except String (List String) :=
  match v with
  | .list xs => iterStrList xs
  | .str s => .ok ((s.toList).map (fun c => String.mk [c]))
  | _ => .error "TypeError: object is not iterable"
where
  iterStrList : List Val → Except String (List String)
    | [] => .ok []
    | .str s :: rest =>
      match iterStrList rest with
      | .error e => .error e
      | .ok ss => .ok (s :: ss)
    | _ :: _ => .error "TypeError: expanduser expects str, bytes or os.PathLike"

/-- Embedding of the per-item body of the loop in `validate_listings_file`
(test_grailed_agent.py lines 63-95): required-field errors, image-existence
warnings, then the missing-metadata report.  An exception raised mid-item
(`TypeError` from a malformed `image_paths`) propagates as `error`. -/
def validateItem (expand : String → String) (fileExists : String → Bool)
    (i : Nat) (item : Metadata) : Except String ItemResult :=
  let r1 := test_required_fields.foldl (requiredStep item)
    ⟨i, true, [], [], []⟩
  let afterImages : Except String ItemResult :=
    match lookupField item "image_paths" with
    | some v =>
      match iterPaths v with
      | .error e => .error e
      | .ok paths => .ok (paths.foldl (imageStep expand fileExists) r1)
    | none => .ok r1
  match afterImages with
  | .error e => .error e
  | .ok r2 => .ok (metadata_fields.foldl (metadataStep item) r2)

/-- The `enumerate(data)` loop of `validate_listings_file` (line 63),
threading the running index; an exception from any item aborts the whole
call (it is caught by the function's outer `except`). -/
def validateItemsFrom (expand : String → String) (fileExists : String → Bool) :
    Nat → List Metadata → Except String (List ItemResult)
  | _, [] => .ok []
  | i, item :: rest =>
    match validateItem expand fileExists i item with
    | .error e => .error e
    | .ok r =>
      match validateItemsFrom expand fileExists (i + 1) rest with
      | .error e => .error e
      | .ok rs => .ok (r :: rs)

/-- The top-level result dict of `validate_listings_file` (lines 102-108
and the exception handlers): `error` is `some` exactly for the early-return
error dicts. -/
structure FileResult where
  valid : Bool
  total_items : Nat
  total_errors : Nat
  total_warnings : Nat
  items : List ItemResult
  error : Option String
  deriving Repr

/-- Embedding of `validate_listings_file` (test_grailed_agent.py lines
41-121) after the file has been read and parsed into a list of item dicts;
file I/O and JSON decoding are the function's entry preconditions (their
failure paths return the analogous error dict and are outside this model).
Aggregates per-item results exactly as lines 97-108 do. -/
def validate_listings_file (expand : String → String)
    (fileExists : String → Bool) (data : List Metadata) : FileResult :=
  match validateItemsFrom expand fileExists 0 data with
  | .error e =>
    { valid := false, total_items := 0, total_errors := 0,
      total_warnings := 0, items := [],
      error := some ("Validation error: " ++ e) }
  | .ok results =>
    { valid := results.all (fun r => r.valid),
      total_items := data.length,
      total_errors := (results.map (fun r => r.errors.length)).sum,
      total_warnings := (results.map (fun r => r.warnings.length)).sum,
      items := results,
      error := none }

/-- One iteration of the loop in `expand_image_paths` (grailed_agent.py
lines 83-89): the expanded path is appended in both branches; a missing
file additionally appends the printed warning line. -/
def expandStep (resolve : String → String) (fileExists : String → Bool)
    (acc : List String × List String) (path : String) :
    List String × List String :=
  let expanded := resolve path
  if fileExists expanded then (acc.1 ++ [expanded], acc.2)
  else (acc.1 ++ [expanded],
        acc.2 ++ ["⚠️  Warning: Image file not found: " ++ path])

/-- Embedding of `expand_image_paths` (grailed_agent.py lines 79-90).
`resolve` models `Path(path).expanduser().resolve()` and `fileExists`
models `Path.exists()`; both depend on the ambient filesystem and are
passed in.  Returns the accumulated result list and the trace of warning
prints. -/
def expand_image_paths (resolve : String → String)
    (fileExists : String → Bool) (image_paths : List String) :
    List String × List String :=
  image_paths.foldl (expandStep resolve fileExists) ([], [])

/-- A browser-page snapshot as the specification's external collaborator
provides it: current URL, DOM landmark identifiers known to be present,
and visible text fragments. -/
structure Snapshot where
  url : String
  landmarks : List String
  text : List String

/-- The closed set of page states, each carrying the raw URL evidence used
to classify it. -/
inductive PageState where
  | loginPopup (url : String)
  | sellPage (url : String)
  | profilePage (url : String)
  | homepage (url : String)
  | unknown (url : String)
  deriving Repr, DecidableEq

/-- Landmarks whose presence indicates a login dialog or credential input,
taken from the marker list in `detect_current_page_state`
(grailed_agent.py lines 137-141). -/
def login_landmarks : List String :=
  ["div[role=dialog]", ".modal", ".login-popup",
   "input[type=email]", "input[type=password]"]

/-- Landmarks of the sell-page form (`detect_current_page_state`
lines 143-147). -/
def sell_form_landmarks : List String :=
  ["select[name=department]", "input[name=title]"]

/-- URL fragments marking the sell page (line 144). -/
def sell_url_patterns : List String := ["/sell", "/create", "/listing"]

/-- URL fragments marking a profile page (line 150). -/
def profile_url_patterns : List String := ["/users/", "/profile"]

/-- True when one of the wanted landmark identifiers is present in the
snapshot's landmark set. -/
def hasAny (present : List String) (wanted : List String) : Bool :=
  wanted.any (fun w => present.contains w)

/-- Whether `pat` is an initial segment of the character list. -/
def startsWithChars : List Char → List Char → Bool
  | [], _ => true
  | _ :: _, [] => false
  | p :: ps, c :: cs => p = c && startsWithChars ps cs

/-- Whether `pat` occurs as a contiguous run inside the character list. -/
def containsChars (pat : List Char) : List Char → Bool
  | [] => startsWithChars pat []
  | c :: cs => startsWithChars pat (c :: cs) || containsChars pat cs

/-- True when the string contains one of the given fragments as a
substring. -/
def containsAny (s : String) (frags : List String) : Bool :=
  frags.any (fun f => containsChars f.toList s.toList)

/-- The remainder of the character list after the first occurrence of
`pat`, when `pat` occurs at all. -/
def dropThrough (pat : List Char) : List Char → Option (List Char)
  | [] => if startsWithChars pat [] then some [] else none
  | c :: cs =>
    if startsWithChars pat (c :: cs) then some ((c :: cs).drop pat.length)
    else dropThrough pat cs

/-- The path part of a URL: the scheme marker and host are stripped, and
everything from the first slash of the remainder is kept (empty when the
URL is the bare site root with no trailing slash). -/
def urlPath (url : String) : String :=
  let rest :=
    match dropThrough ("://".toList) url.toList with
    | some r => r
    | none => url.toList
  String.mk (rest.dropWhile (fun c => c ≠ '/'))

/-- Modelled from the spec: the page-state classifier of section 4.3.  In
the source, `detect_current_page_state` returns only constant instruction
text for a language model to apply, so the classifier itself is missing
from the code; this definition follows the spec's priority-ordered rules
(first match wins): login landmark present, then sell URL pattern plus
sell-form landmark, then profile URL pattern, then bare site root, else
unknown. -/
def classify (s : Snapshot) : PageState :=
  if hasAny s.landmarks login_landmarks then .loginPopup s.url
  else if containsAny (urlPath s.url) sell_url_patterns &&
          hasAny s.landmarks sell_form_landmarks then .sellPage s.url
  else if containsAny (urlPath s.url) profile_url_patterns then
    .profilePage s.url
  else if urlPath s.url = "/" || urlPath s.url = "" then .homepage s.url
  else .unknown s.url

/-- Per-item outcome status in the run report (spec section 3). -/
inductive ItemStatus where
  | succeeded
  | skipped
  | failed
  deriving Repr, DecidableEq

/-- One entry of the run report accumulated by the pipeline. -/
structure Outcome where
  index : Nat
  status : ItemStatus
  reason : Option String
  deriving Repr, DecidableEq

/-- Modelled from the spec: submission of one item by the pipeline of
section 4.5.  In the source, `run_with_mcp_context` only interpolates
"dry-run" or "live" into instruction text for a language model, so the
pipeline itself is missing from the code.  `fillOk` abstracts whether the
form-fill for this item succeeds.  Returns the item's outcome together
with the indices at which the publish action was invoked: a successfully
filled item publishes once in live mode and reports simulated success
without publishing in dry-run mode; a failed fill is recorded and never
published. -/
def submitItem (dryRun : Bool) (fillOk : Bool) (i : Nat) :
    Outcome × List Nat :=
  if fillOk then
    if dryRun then (⟨i, .succeeded, some "dry-run: publish simulated"⟩, [])
    else (⟨i, .succeeded, none⟩, [i])
  else (⟨i, .failed, some "form fill failed"⟩, [])

/-- Modelled from the spec: the listing-submission pipeline of section
4.5, processing `count` items strictly in order from `startIndex` and
concatenating each item's publish invocations into one log. -/
def submitRun (dryRun : Bool) (fillOk : Nat → Bool) :
    Nat → Nat → List Outcome × List Nat
  | _, 0 => ([], [])
  | startIndex, n + 1 =>
    let first := submitItem dryRun (fillOk startIndex) startIndex
    let rest := submitRun dryRun fillOk (startIndex + 1) n
    (first.1 :: rest.1, first.2 ++ rest.2)

/-- Specification view of the field-copy loops of
`validate_grailed_metadata`: the sublist of `(field, value)` pairs for
those of the given fields that are present, in field-list order. -/
def pick (m : Metadata) (fields : List String) : Metadata :=
  fields.filterMap (fun f => (lookupField m f).map (fun v => (f, v)))

/-- Specification view of the stdout trace of
`validate_grailed_metadata`: one warning line per absent field, in
field-list order. -/
def missingWarns (m : Metadata) (fields : List String) : List String :=
  fields.filterMap (fun f =>
    if (lookupField m f).isSome then none
    else some ("⚠️  Missing required field: " ++ f))

/-- Whether a field is absent or `None` — the test of the
missing-metadata loop in `validate_listings_file` (line 92). -/
def absentOrNull (item : Metadata) (f : String) : Bool :=
  match lookupField item f with
  | none => true
  | some .null => true
  | some _ => false

/-- Whether an `Except` value is an error (a raised exception). -/
def isErr {ε α : Type} : Except ε α → Bool
  | .error _ => true
  | .ok _ => false

/-- A sample listing record carrying every required field, used by
witnesses. -/
def sampleRecord : Metadata :=
  [("department", Val.str "Menswear"), ("category", Val.str "Tops"),
   ("sub_category", Val.str "T-Shirts"), ("designer", Val.str "Acme"),
   ("item_name", Val.str "Tee"), ("size", Val.str "M"),
   ("color", Val.str "Navy"), ("condition", Val.str "Like New"),
   ("price", Val.int 40), ("description", Val.str "A tee"),
   ("image_paths", Val.list [Val.str "a.jpg"])]

/-! Shared lemmas about the validator embedding. -/

theorem foldl_vgStep (m : Metadata) (fields : List String) :
    ∀ a w, fields.foldl (vgStep m) (a, w) =
      (a ++ pick m fields, w ++ missingWarns m fields) := by
  induction fields with
  | nil => intro a w; simp [pick, missingWarns]
  | cons f rest ih =>
    intro a w
    simp only [List.foldl_cons]
    cases h : lookupField m f with
    | none =>
      rw [show vgStep m (a, w) f =
        (a, w ++ ["⚠️  Missing required field: " ++ f]) by
          simp [vgStep, h]]
      rw [ih]
      simp [pick, missingWarns, h]
    | some v =>
      rw [show vgStep m (a, w) f = (a ++ [(f, v)], w) by simp [vgStep, h]]
      rw [ih]
      simp [pick, missingWarns, h]

theorem foldl_optStep (m : Metadata) (fields : List String) :
    ∀ vs, fields.foldl (optStep m) vs = vs ++ pick m fields := by
  induction fields with
  | nil => intro vs; simp [pick]
  | cons f rest ih =>
    intro vs
    simp only [List.foldl_cons]
    cases h : lookupField m f with
    | none =>
      rw [show optStep m vs f = vs by simp [optStep, h]]
      rw [ih]
      simp [pick, h]
    | some v =>
      rw [show optStep m vs f = vs ++ [(f, v)] by simp [optStep, h]]
      rw [ih]
      simp [pick, h]

theorem vgm_eq (m : Metadata) :
    validate_grailed_metadata m =
      (match imageCheck m with
       | .error e => .error e
       | .ok _ => .ok (pick m required_fields ++ pick m optional_fields),
       missingWarns m required_fields) := by
  unfold validate_grailed_metadata
  rw [foldl_vgStep]
  cases imageCheck m with
  | error e => simp
  | ok u => simp [foldl_optStep]

theorem vgm_snd (m : Metadata) :
    (validate_grailed_metadata m).2 = missingWarns m required_fields := by
  rw [vgm_eq]

theorem vgm_fst_ok (m : Metadata) (v : Metadata)
    (h : (validate_grailed_metadata m).1 = .ok v) :
    imageCheck m = .ok () ∧
      v = pick m required_fields ++ pick m optional_fields := by
  rw [vgm_eq] at h
  cases hc : imageCheck m with
  | error e => rw [hc] at h; simp at h
  | ok u =>
    rw [hc] at h
    simp at h
    exact ⟨rfl, h.symm⟩

theorem vgm_isErr (m : Metadata) :
    isErr (validate_grailed_metadata m).1 = isErr (imageCheck m) := by
  rw [vgm_eq]
  cases imageCheck m with
  | error e => rfl
  | ok u => rfl

theorem vgm_fst_err (m : Metadata) (e : String)
    (h : (validate_grailed_metadata m).1 = .error e) :
    imageCheck m = .error e := by
  rw [vgm_eq] at h
  cases hc : imageCheck m with
  | error e2 => rw [hc] at h; simp at h; rw [h]
  | ok u => rw [hc] at h; simp at h

theorem lookupField_append (a b : Metadata) (f : String) :
    lookupField (a ++ b) f =
      (match lookupField a f with
       | some v => some v
       | none => lookupField b f) := by
  induction a with
  | nil => simp [lookupField]
  | cons p rest ih =>
    by_cases h : p.1 = f
    · simp [lookupField, h]
    · simp [lookupField, h, ih]

theorem lookupField_pick (m : Metadata) (fields : List String) (f : String) :
    lookupField (pick m fields) f =
      if f ∈ fields then lookupField m f else none := by
  induction fields with
  | nil => simp [pick, lookupField]
  | cons g rest ih =>
    have hcons : pick m (g :: rest) =
        (match lookupField m g with
         | some v => (g, v) :: pick m rest
         | none => pick m rest) := by
      cases h : lookupField m g <;> simp [pick, h]
    rw [hcons]
    cases h : lookupField m g with
    | none =>
      simp only [h]
      rw [ih]
      by_cases hg : f = g
      · subst hg
        by_cases hr : f ∈ rest <;> simp [hr, h]
      · simp [List.mem_cons, hg]
    | some v =>
      simp only [h]
      by_cases hg : f = g
      · subst hg
        simp [lookupField, h]
      · simp only [lookupField]
        rw [if_neg (fun hx : g = f => hg hx.symm), ih]
        simp [List.mem_cons, hg]

theorem lookupField_pick_append (m : Metadata) (fs1 fs2 : List String)
    (f : String) :
    lookupField (pick m fs1 ++ pick m fs2) f =
      if f ∈ fs1 ∨ f ∈ fs2 then lookupField m f else none := by
  rw [lookupField_append, lookupField_pick, lookupField_pick]
  by_cases h1 : f ∈ fs1
  · by_cases hm : (lookupField m f).isSome
    · obtain ⟨v, hv⟩ := Option.isSome_iff_exists.mp hm
      simp [h1, hv]
    · rw [Option.not_isSome_iff_eq_none] at hm
      by_cases h2 : f ∈ fs2 <;> simp [h1, h2, hm]
  · by_cases h2 : f ∈ fs2 <;> simp [h1, h2]

theorem pick_congr (m v : Metadata) (fields : List String)
    (h : ∀ f ∈ fields, lookupField v f = lookupField m f) :
    pick v fields = pick m fields := by
  induction fields with
  | nil => rfl
  | cons g rest ih =>
    simp only [pick, List.filterMap_cons]
    rw [h g (by simp)]
    rw [show (rest.filterMap fun f =>
      (lookupField v f).map fun u => (f, u)) = pick v rest from rfl]
    rw [show (rest.filterMap fun f =>
      (lookupField m f).map fun u => (f, u)) = pick m rest from rfl]
    rw [ih (fun f hf => h f (by simp [hf]))]

theorem checkImages_err_iff (paths : List String) :
    isErr (checkImages (paths.map Val.str)) = true ↔
      ∃ p ∈ paths, ¬ lowerStr (pySuffix p) ∈ allowed_suffixes := by
  induction paths with
  | nil => simp [checkImages, isErr]
  | cons p rest ih =>
    simp only [List.map_cons, checkImages]
    by_cases hp : lowerStr (pySuffix p) ∈ allowed_suffixes
    · rw [show checkOneImage (Val.str p) = .ok () by simp [checkOneImage, hp]]
      simp only [ih]
      constructor
      · intro ⟨q, hq, hbad⟩; exact ⟨q, by simp [hq], hbad⟩
      · intro ⟨q, hq, hbad⟩
        rcases List.mem_cons.mp hq with hq | hq
        · subst hq; exact absurd hp hbad
        · exact ⟨q, hq, hbad⟩
    · rw [show checkOneImage (Val.str p) = .error ("Invalid image format: " ++
        pySuffix p ++ ". Only JPG/JPEG files are supported for Gemini API.")
        by simp [checkOneImage, hp]]
      simp only [isErr]
      constructor
      · intro _; exact ⟨p, by simp, hp⟩
      · intro _; trivial

theorem requiredFold_inv (item : Metadata) (fields : List String) :
    ∀ r : ItemResult, (r.valid = true ↔ r.errors = []) →
      ((fields.foldl (requiredStep item) r).valid = true ↔
        (fields.foldl (requiredStep item) r).errors = []) := by
  induction fields with
  | nil => intro r h; exact h
  | cons f rest ih =>
    intro r h
    simp only [List.foldl_cons]
    apply ih
    unfold requiredStep
    by_cases hf : (lookupField item f).isSome
    · simp [hf, h]
    · simp [hf]

theorem imageFold_fields (expand : String → String)
    (fileExists : String → Bool) (paths : List String) :
    ∀ r : ItemResult,
      (paths.foldl (imageStep expand fileExists) r).valid = r.valid ∧
      (paths.foldl (imageStep expand fileExists) r).errors = r.errors ∧
      (paths.foldl (imageStep expand fileExists) r).index = r.index ∧
      (paths.foldl (imageStep expand fileExists) r).missing_metadata =
        r.missing_metadata := by
  induction paths with
  | nil => intro r; exact ⟨rfl, rfl, rfl, rfl⟩
  | cons p rest ih =>
    intro r
    simp only [List.foldl_cons]
    have step : (imageStep expand fileExists r p).valid = r.valid ∧
        (imageStep expand fileExists r p).errors = r.errors ∧
        (imageStep expand fileExists r p).index = r.index ∧
        (imageStep expand fileExists r p).missing_metadata =
          r.missing_metadata := by
      unfold imageStep
      by_cases hp : fileExists (expand p) <;> simp [hp]
    obtain ⟨s1, s2, s3, s4⟩ := step
    obtain ⟨t1, t2, t3, t4⟩ := ih (imageStep expand fileExists r p)
    exact ⟨t1.trans s1, t2.trans s2, t3.trans s3, t4.trans s4⟩

theorem metaFold_fields (item : Metadata) (fields : List String) :
    ∀ r : ItemResult,
      (fields.foldl (metadataStep item) r).valid = r.valid ∧
      (fields.foldl (metadataStep item) r).errors = r.errors ∧
      (fields.foldl (metadataStep item) r).warnings = r.warnings ∧
      (fields.foldl (metadataStep item) r).index = r.index ∧
      (fields.foldl (metadataStep item) r).missing_metadata =
        r.missing_metadata ++ fields.filter (absentOrNull item) := by
  induction fields with
  | nil => intro r; exact ⟨rfl, rfl, rfl, rfl, by simp⟩
  | cons f rest ih =>
    intro r
    simp only [List.foldl_cons]
    have step : (metadataStep item r f).valid = r.valid ∧
        (metadataStep item r f).errors = r.errors ∧
        (metadataStep item r f).warnings = r.warnings ∧
        (metadataStep item r f).index = r.index ∧
        (metadataStep item r f).missing_metadata =
          r.missing_metadata ++ (if absentOrNull item f then [f] else []) := by
      unfold metadataStep
      cases h : lookupField item f with
      | none => simp [absentOrNull, h]
      | some v => cases v <;> simp [absentOrNull, h]
    obtain ⟨s1, s2, s3, s4, s5⟩ := step
    obtain ⟨t1, t2, t3, t4, t5⟩ := ih (metadataStep item r f)
    refine ⟨t1.trans s1, t2.trans s2, t3.trans s3, t4.trans s4, ?_⟩
    rw [t5, s5]
    by_cases hf : absentOrNull item f <;> simp [hf, List.filter_cons]

theorem requiredFold_eq (item : Metadata) (i : Nat) :
    test_required_fields.foldl (requiredStep item) ⟨i, true, [], [], []⟩ =
      ⟨i, (lookupField item "image_paths").isSome &&
            (lookupField item "price").isSome,
        (if (lookupField item "image_paths").isSome then []
         else ["Missing required field: image_paths"]) ++
        (if (lookupField item "price").isSome then []
         else ["Missing required field: price"]),
        [], []⟩ := by
  by_cases h1 : (lookupField item "image_paths").isSome <;>
    by_cases h2 : (lookupField item "price").isSome <;>
      simp [test_required_fields, requiredStep, h1, h2]

theorem validateItem_ok_decomp (expand : String → String)
    (fileExists : String → Bool) (i : Nat) (item : Metadata) (r : ItemResult)
    (h : validateItem expand fileExists i item = .ok r) :
    r.index = i ∧
    r.valid = ((lookupField item "image_paths").isSome &&
               (lookupField item "price").isSome) ∧
    r.errors = ((if (lookupField item "image_paths").isSome then []
                 else ["Missing required field: image_paths"]) ++
                (if (lookupField item "price").isSome then []
                 else ["Missing required field: price"])) ∧
    r.missing_metadata = metadata_fields.filter (absentOrNull item) := by
  simp only [validateItem] at h
  cases hip : lookupField item "image_paths" with
  | none =>
    simp only [hip, Except.ok.injEq] at h
    subst h
    obtain ⟨m1, m2, _, m4, m5⟩ := metaFold_fields item metadata_fields
      (test_required_fields.foldl (requiredStep item) ⟨i, true, [], [], []⟩)
    rw [m1, m2, m4, m5, requiredFold_eq]
    simp [hip]
  | some v =>
    simp only [hip] at h
    cases hit : iterPaths v with
    | error e => simp only [hit] at h; exact absurd h (by simp)
    | ok paths =>
      simp only [hit, Except.ok.injEq] at h
      subst h
      obtain ⟨m1, m2, _, m4, m5⟩ := metaFold_fields item metadata_fields
        (paths.foldl (imageStep expand fileExists)
          (test_required_fields.foldl (requiredStep item) ⟨i, true, [], [], []⟩))
      obtain ⟨g1, g2, g3, g4⟩ := imageFold_fields expand fileExists paths
        (test_required_fields.foldl (requiredStep item) ⟨i, true, [], [], []⟩)
      rw [m1, m2, m4, m5, g1, g2, g3, g4, requiredFold_eq]
      simp [hip]

theorem validateItemsFrom_mem (expand : String → String)
    (fileExists : String → Bool) :
    ∀ (i : Nat) (data : List Metadata) (results : List ItemResult),
      validateItemsFrom expand fileExists i data = .ok results →
      ∀ r ∈ results, ∃ j item,
        validateItem expand fileExists j item = .ok r := by
  intro i data
  induction data generalizing i with
  | nil =>
    intro results h r hr
    simp only [validateItemsFrom, Except.ok.injEq] at h
    subst h
    simp at hr
  | cons item rest ih =>
    intro results h r hr
    simp only [validateItemsFrom] at h
    cases h1 : validateItem expand fileExists i item with
    | error e => rw [h1] at h; simp at h
    | ok r1 =>
      rw [h1] at h
      cases h2 : validateItemsFrom expand fileExists (i + 1) rest with
      | error e => rw [h2] at h; simp at h
      | ok rs =>
        rw [h2] at h
        simp only [Except.ok.injEq] at h
        subst h
        rcases List.mem_cons.mp hr with hr | hr
        · exact ⟨i, item, hr ▸ h1⟩
        · exact ih (i + 1) rs h2 r hr

theorem expandFold (resolve : String → String) (fileExists : String → Bool)
    (paths : List String) :
    ∀ a w, paths.foldl (expandStep resolve fileExists) (a, w) =
      (a ++ paths.map resolve,
       w ++ paths.filterMap (fun p =>
         if fileExists (resolve p) then none
         else some ("⚠️  Warning: Image file not found: " ++ p))) := by
  induction paths with
  | nil => intro a w; simp
  | cons p rest ih =>
    intro a w
    simp only [List.foldl_cons]
    by_cases hp : fileExists (resolve p)
    · rw [show expandStep resolve fileExists (a, w) p =
        (a ++ [resolve p], w) by simp [expandStep, hp]]
      rw [ih]
      simp [hp]
    · rw [show expandStep resolve fileExists (a, w) p =
        (a ++ [resolve p],
         w ++ ["⚠️  Warning: Image file not found: " ++ p]) by
          simp [expandStep, hp]]
      rw [ih]
      simp [hp]

/-- C10: `expand_image_paths` maps each input path to its expanded form,
preserving length and order; a path whose expansion does not exist is
retained in the result (with a warning print), never dropped. -/
theorem expand_paths_retain_with_warning (resolve : String → String)
    (fileExists : String → Bool) (image_paths : List String) :
    (expand_image_paths resolve fileExists image_paths).1 =
      image_paths.map resolve ∧
    (expand_image_paths resolve fileExists image_paths).1.length =
      image_paths.length ∧
    (∀ i : Nat, (expand_image_paths resolve fileExists image_paths).1[i]? =
      (image_paths[i]?).map resolve) ∧
    (∀ p ∈ image_paths, fileExists (resolve p) = false →
      ("⚠️  Warning: Image file not found: " ++ p) ∈
        (expand_image_paths resolve fileExists image_paths).2) := by
  have h := expandFold resolve fileExists image_paths [] []
  have h1 : (expand_image_paths resolve fileExists image_paths).1 =
      image_paths.map resolve := by
    unfold expand_image_paths
    rw [h]
    simp
  refine ⟨h1, by rw [h1]; simp, fun i => by rw [h1]; simp, ?_⟩
  intro p hp hmiss
  unfold expand_image_paths
  rw [h]
  simp only [List.nil_append]
  exact List.mem_filterMap.mpr ⟨p, hp, by simp [hmiss]⟩

theorem expand_paths_retain_with_warning_witness :
    (expand_image_paths (fun s => "/resolved/" ++ s) (fun _ => false)
      ["a.jpg"]).1 = ["/resolved/a.jpg"] ∧
    ("⚠️  Warning: Image file not found: a.jpg") ∈
      (expand_image_paths (fun s => "/resolved/" ++ s) (fun _ => false)
        ["a.jpg"]).2 :=
  ⟨((expand_paths_retain_with_warning (fun s => "/resolved/" ++ s)
      (fun _ => false) ["a.jpg"]).1).trans rfl,
   (expand_paths_retain_with_warning (fun s => "/resolved/" ++ s)
      (fun _ => false) ["a.jpg"]).2.2.2 "a.jpg" (by simp) rfl⟩

/-- C4: the page-state classifier is a total, deterministic, pure
function of the snapshot: every snapshot is mapped to exactly one
`PageState`, drawn from the closed set of five variants, with no other
input.  (Modelled from the spec, section 4.3.) -/
theorem classify_total_deterministic (s : Snapshot) :
    (∃! p : PageState, classify s = p) ∧
    (classify s = .loginPopup s.url ∨ classify s = .sellPage s.url ∨
     classify s = .profilePage s.url ∨ classify s = .homepage s.url ∨
     classify s = .unknown s.url) := by
  refine ⟨⟨classify s, rfl, fun q hq => hq.symm⟩, ?_⟩
  unfold classify
  split
  · exact Or.inl rfl
  · split
    · exact Or.inr (Or.inl rfl)
    · split
      · exact Or.inr (Or.inr (Or.inl rfl))
      · split
        · exact Or.inr (Or.inr (Or.inr (Or.inl rfl)))
        · exact Or.inr (Or.inr (Or.inr (Or.inr rfl)))

theorem classify_total_deterministic_witness :
    classify ⟨"https://www.grailed.com/sell",
      ["select[name=department]"], []⟩ =
      PageState.sellPage "https://www.grailed.com/sell" :=
  (classify_total_deterministic ⟨"https://www.grailed.com/sell",
    ["select[name=department]"], []⟩).1.unique rfl rfl

/-- C6: in dry-run mode the pipeline never invokes the publish action and
reports simulated success for every filled item; in live mode it invokes
publish exactly once per successfully filled item and never for a failed
one.  (Modelled from the spec, sections 4.5 and 8.) -/
theorem dry_run_publish_policy (fillOk : Nat → Bool) (startIndex n : Nat) :
    (submitRun true fillOk startIndex n).2 = [] ∧
    (∀ o ∈ (submitRun true fillOk startIndex n).1, fillOk o.index = true →
      o.status = .succeeded ∧ o.reason = some "dry-run: publish simulated") ∧
    (∀ i : Nat, (submitRun false fillOk startIndex n).2.count i =
      if startIndex ≤ i ∧ i < startIndex + n ∧ fillOk i = true then 1
      else 0) := by
  induction n generalizing startIndex with
  | zero =>
    refine ⟨rfl, by intro o ho; simp [submitRun] at ho, ?_⟩
    intro i
    rw [if_neg (fun hc => by omega)]
    rfl
  | succ k ih =>
    obtain ⟨ih1, ih2, ih3⟩ := ih (startIndex + 1)
    refine ⟨?_, ?_, ?_⟩
    · show (submitItem true (fillOk startIndex) startIndex).2 ++
        (submitRun true fillOk (startIndex + 1) k).2 = []
      rw [ih1]
      by_cases hb : fillOk startIndex <;> simp [submitItem, hb]
    · intro o ho hfo
      rcases List.mem_cons.mp ho with ho | ho
      · subst ho
        by_cases hb : fillOk startIndex
        · simp [submitItem, hb]
        · exfalso
          have : (submitItem true (fillOk startIndex) startIndex).1.index =
              startIndex := by
            simp [submitItem, hb]
          rw [this] at hfo
          exact hb hfo
      · exact ih2 o ho hfo
    · intro i
      show ((submitItem false (fillOk startIndex) startIndex).2 ++
        (submitRun false fillOk (startIndex + 1) k).2).count i = _
      rw [List.count_append, ih3 i]
      by_cases hi : i = startIndex
      · subst hi
        rw [if_neg (fun hc => by omega)]
        by_cases hb : fillOk i
        · rw [if_pos ⟨Nat.le_refl i, by omega, hb⟩]
          simp [submitItem, hb]
        · rw [if_neg (fun hc => hb hc.2.2)]
          simp [submitItem, hb]
      · have hhead : (submitItem false (fillOk startIndex) startIndex).2.count
            i = 0 := by
          by_cases hb : fillOk startIndex <;>
            simp [submitItem, hb, List.count_cons, Ne.symm hi]
        rw [hhead]
        have hiff : (startIndex + 1 ≤ i ∧ i < startIndex + 1 + k ∧
            fillOk i = true) ↔ (startIndex ≤ i ∧ i < startIndex + (k + 1) ∧
            fillOk i = true) := by
          constructor
          · rintro ⟨a, b, c⟩; exact ⟨by omega, by omega, c⟩
          · rintro ⟨a, b, c⟩; exact ⟨by omega, by omega, c⟩
        rw [if_congr hiff rfl rfl]
        omega

theorem dry_run_publish_policy_witness :
    (submitRun true (fun j => j ≠ 1) 0 3).2 = [] ∧
    (submitRun false (fun j => j ≠ 1) 0 3).2.count 0 = 1 ∧
    (submitRun false (fun j => j ≠ 1) 0 3).2.count 1 = 0 := by
  refine ⟨(dry_run_publish_policy (fun j => j ≠ 1) 0 3).1, ?_, ?_⟩
  · rw [(dry_run_publish_policy (fun j => j ≠ 1) 0 3).2.2 0]
    rw [if_pos ⟨Nat.le_refl 0, by omega, by decide⟩]
  · rw [(dry_run_publish_policy (fun j => j ≠ 1) 0 3).2.2 1]
    rw [if_neg (fun hc => by exact absurd hc.2.2 (by decide))]

/-- C5: a per-item result of `validate_listings_file` has `valid = true`
iff its `errors` list is empty — warnings (such as a missing image file)
touch only the separate `warnings` list and never clear `valid` — and at
file level `valid` is true iff the total error count is zero. -/
theorem isValid_iff_no_errors (expand : String → String)
    (fileExists : String → Bool) :
    (∀ (i : Nat) (item : Metadata) (r : ItemResult),
      validateItem expand fileExists i item = .ok r →
      (r.valid = true ↔ r.errors = [])) ∧
    (∀ data : List Metadata,
      (validate_listings_file expand fileExists data).error = none →
      ((validate_listings_file expand fileExists data).valid = true ↔
        (validate_listings_file expand fileExists data).total_errors = 0)) := by
  have hitem : ∀ (i : Nat) (item : Metadata) (r : ItemResult),
      validateItem expand fileExists i item = .ok r →
      (r.valid = true ↔ r.errors = []) := by
    intro i item r h
    obtain ⟨_, hv, he, _⟩ := validateItem_ok_decomp expand fileExists i item r h
    rw [hv, he]
    by_cases h1 : (lookupField item "image_paths").isSome <;>
      by_cases h2 : (lookupField item "price").isSome <;> simp [h1, h2]
  refine ⟨hitem, ?_⟩
  intro data herr
  unfold validate_listings_file at herr ⊢
  cases h : validateItemsFrom expand fileExists 0 data with
  | error e => rw [h] at herr; simp at herr
  | ok results =>
    simp only []
    rw [List.all_eq_true, List.sum_eq_zero_iff]
    constructor
    · intro hall x hx
      obtain ⟨r, hr, hxr⟩ := List.mem_map.mp hx
      obtain ⟨j, it, hj⟩ :=
        validateItemsFrom_mem expand fileExists 0 data results h r hr
      rw [← hxr, List.length_eq_zero]
      exact (hitem j it r hj).mp (hall r hr)
    · intro hzero r hr
      obtain ⟨j, it, hj⟩ :=
        validateItemsFrom_mem expand fileExists 0 data results h r hr
      refine (hitem j it r hj).mpr ?_
      rw [← List.length_eq_zero]
      exact hzero r.errors.length (List.mem_map.mpr ⟨r, hr, rfl⟩)

theorem isValid_iff_no_errors_witness :
    ((⟨0, true, [], ["Image file not found: a.jpg"],
        metadata_fields⟩ : ItemResult).valid = true ↔
      (⟨0, true, [], ["Image file not found: a.jpg"],
        metadata_fields⟩ : ItemResult).errors = []) ∧
    ((validate_listings_file id (fun _ => false)
        [[("image_paths", Val.list [Val.str "a.jpg"]),
          ("price", Val.int 1)]]).valid = true ↔
      (validate_listings_file id (fun _ => false)
        [[("image_paths", Val.list [Val.str "a.jpg"]),
          ("price", Val.int 1)]]).total_errors = 0) :=
  ⟨(isValid_iff_no_errors id (fun _ => false)).1 0
      [("image_paths", Val.list [Val.str "a.jpg"]), ("price", Val.int 1)]
      ⟨0, true, [], ["Image file not found: a.jpg"], metadata_fields⟩ rfl,
   (isValid_iff_no_errors id (fun _ => false)).2
      [[("image_paths", Val.list [Val.str "a.jpg"]), ("price", Val.int 1)]]
      rfl⟩

/-- C2: the strict policy of `validate_listings_file` turns every absent
required field (`image_paths`, `price`) into an error that rejects the
record, while the missing-metadata report and the missing-field warnings
of `validate_grailed_metadata` only inform the caller without rejecting;
in no path does an absent required field go unreported. -/
theorem strict_vs_preflight_missing_fields (expand : String → String)
    (fileExists : String → Bool) (i : Nat) (item : Metadata)
    (r : ItemResult) (h : validateItem expand fileExists i item = .ok r) :
    (∀ f ∈ test_required_fields, lookupField item f = none →
      ("Missing required field: " ++ f) ∈ r.errors ∧ r.valid = false) ∧
    (∀ f ∈ metadata_fields, lookupField item f = none →
      f ∈ r.missing_metadata) ∧
    ((∀ f ∈ test_required_fields, (lookupField item f).isSome) →
      r.valid = true) ∧
    (∀ (m : Metadata) (f : String), f ∈ required_fields →
      lookupField m f = none →
      ("⚠️  Missing required field: " ++ f) ∈
        (validate_grailed_metadata m).2) := by
  obtain ⟨_, hv, he, hm⟩ := validateItem_ok_decomp expand fileExists i item r h
  refine ⟨?_, ?_, ?_, ?_⟩
  · intro f hf habs
    have habs' : (lookupField item f).isSome = false := by rw [habs]; rfl
    rcases show f = "image_paths" ∨ f = "price" by
        simpa [test_required_fields] using hf with hf' | hf'
    · subst hf'
      rw [he, hv, habs']
      refine ⟨List.mem_append_left _ (by simp), by simp⟩
    · subst hf'
      rw [he, hv, habs']
      refine ⟨List.mem_append_right _ (by simp), by simp⟩
  · intro f hf habs
    rw [hm]
    exact List.mem_filter.mpr ⟨hf, by simp [absentOrNull, habs]⟩
  · intro hall
    rw [hv]
    rw [hall "image_paths" (by simp [test_required_fields]),
        hall "price" (by simp [test_required_fields])]
    rfl
  · intro m f hf habs
    rw [vgm_snd]
    exact List.mem_filterMap.mpr ⟨f, hf, by simp [habs]⟩

theorem strict_vs_preflight_missing_fields_witness :
    ("Missing required field: image_paths" ∈
      (⟨0, false, ["Missing required field: image_paths"], [],
        metadata_fields⟩ : ItemResult).errors ∧
      (⟨0, false, ["Missing required field: image_paths"], [],
        metadata_fields⟩ : ItemResult).valid = false) ∧
    "department" ∈
      (⟨0, false, ["Missing required field: image_paths"], [],
        metadata_fields⟩ : ItemResult).missing_metadata ∧
    "⚠️  Missing required field: department" ∈
      (validate_grailed_metadata ([] : Metadata)).2 :=
  ⟨(strict_vs_preflight_missing_fields id (fun _ => true) 0
      [("price", Val.null)]
      ⟨0, false, ["Missing required field: image_paths"], [],
        metadata_fields⟩ rfl).1 "image_paths"
      (by simp [test_required_fields]) rfl,
   (strict_vs_preflight_missing_fields id (fun _ => true) 0
      [("price", Val.null)]
      ⟨0, false, ["Missing required field: image_paths"], [],
        metadata_fields⟩ rfl).2.1 "department"
      (by simp [metadata_fields]) rfl,
   (strict_vs_preflight_missing_fields id (fun _ => true) 0
      [("price", Val.null)]
      ⟨0, false, ["Missing required field: image_paths"], [],
        metadata_fields⟩ rfl).2.2.2 [] "department"
      (by simp [required_fields]) rfl⟩

/-- C1 counterexample: a record whose department is the case variant
"menswear" — which the claim says must yield exactly one error naming the
value — is validated with an empty error list and `valid = true` by
`validate_listings_file`, and `validate_grailed_metadata` copies the value
through untouched and raises nothing. -/
theorem department_not_validated_cex :
    (validateItem id (fun _ => true) 0
        [("department", Val.str "menswear"),
         ("image_paths", Val.list [Val.str "a.jpg"]),
         ("price", Val.int 100)]).map (fun r => (r.errors, r.valid)) =
      .ok ([], true) ∧
    ((validate_grailed_metadata
        [("department", Val.str "menswear"),
         ("image_paths", Val.list [Val.str "a.jpg"]),
         ("price", Val.int 100)]).1).map
      (fun v => lookupField v "department") =
      .ok (some (Val.str "menswear")) :=
  ⟨rfl, rfl⟩

/-- C1 amended: department is never checked against any enumerated set —
for every record the only possible errors are the missing-required-field
errors for `image_paths` and `price` (so no department value, valid or
invalid, ever produces a department error), and the department value is
passed through to the validated output unchanged (not auto-corrected). -/
theorem department_passthrough_no_error (expand : String → String)
    (fileExists : String → Bool) (i : Nat) (item : Metadata)
    (r : ItemResult) (h : validateItem expand fileExists i item = .ok r) :
    (∀ e ∈ r.errors, e = "Missing required field: image_paths" ∨
      e = "Missing required field: price") ∧
    (∀ (m v : Metadata) (d : Val), lookupField m "department" = some d →
      (validate_grailed_metadata m).1 = .ok v →
      lookupField v "department" = some d) := by
  obtain ⟨_, _, he, _⟩ := validateItem_ok_decomp expand fileExists i item r h
  constructor
  · intro e hee
    rw [he] at hee
    rcases List.mem_append.mp hee with hee | hee
    · left
      by_cases h1 : (lookupField item "image_paths").isSome
      · simp [h1] at hee
      · simp [h1] at hee
        exact hee
    · right
      by_cases h2 : (lookupField item "price").isSome
      · simp [h2] at hee
      · simp [h2] at hee
        exact hee
  · intro m v d hd hok
    obtain ⟨_, hveq⟩ := vgm_fst_ok m v hok
    rw [hveq, lookupField_pick_append,
        if_pos (Or.inl (by simp [required_fields]))]
    exact hd

theorem department_passthrough_no_error_witness :
    lookupField [("department", Val.str "Menswear"),
      ("image_paths", Val.list [])] "department" =
      some (Val.str "Menswear") :=
  (department_passthrough_no_error id (fun _ => true) 0 []
      ⟨0, false, ["Missing required field: image_paths",
        "Missing required field: price"], [], metadata_fields⟩ rfl).2
    [("department", Val.str "Menswear"), ("image_paths", Val.list [])]
    [("department", Val.str "Menswear"), ("image_paths", Val.list [])]
    (Val.str "Menswear") rfl rfl

/-- C3 counterexample: the condition value "like new" — which the claim
says is matched case-insensitively and normalized to "Like New" — is
copied through unchanged by `validate_grailed_metadata`, and the
non-matching condition value "totally shredded" produces no error. -/
theorem condition_not_validated_cex :
    ((validate_grailed_metadata
        [("condition", Val.str "like new"),
         ("image_paths", Val.list [])]).1).map
      (fun v => lookupField v "condition") =
      .ok (some (Val.str "like new")) ∧
    ("like new" : String) ≠ "Like New" ∧
    isErr (validate_grailed_metadata
        [("condition", Val.str "totally shredded"),
         ("image_paths", Val.list [])]).1 = false :=
  ⟨rfl, by decide, rfl⟩

/-- C3 amended: condition is never validated or normalized — the value is
passed through to the validated output unchanged for every record, and the
only exception `validate_grailed_metadata` can raise comes from the
image-format check, never from a condition value. -/
theorem condition_passthrough (m : Metadata) :
    (∀ (c : Val) (v : Metadata), lookupField m "condition" = some c →
      (validate_grailed_metadata m).1 = .ok v →
      lookupField v "condition" = some c) ∧
    (∀ e : String, (validate_grailed_metadata m).1 = .error e →
      imageCheck m = .error e) := by
  constructor
  · intro c v hc hok
    obtain ⟨_, hveq⟩ := vgm_fst_ok m v hok
    rw [hveq, lookupField_pick_append,
        if_pos (Or.inl (by simp [required_fields]))]
    exact hc
  · intro e he
    exact vgm_fst_err m e he

theorem condition_passthrough_witness :
    lookupField [("condition", Val.str "like new"),
      ("image_paths", Val.list [])] "condition" =
      some (Val.str "like new") :=
  (condition_passthrough
      [("condition", Val.str "like new"), ("image_paths", Val.list [])]).1
    (Val.str "like new")
    [("condition", Val.str "like new"), ("image_paths", Val.list [])]
    rfl rfl

/-- C7: `validate_grailed_metadata` raises a hard error exactly when some
supplied image path has an extension whose lowercase form is outside the
allowed set `.jpg`/`.jpeg`, and raises no error when every supplied path's
extension is allowed. -/
theorem image_format_strict_check (m : Metadata) (paths : List String)
    (h : lookupField m "image_paths" = some (Val.list (paths.map Val.str))) :
    isErr (validate_grailed_metadata m).1 = true ↔
      ∃ p ∈ paths, ¬ lowerStr (pySuffix p) ∈ allowed_suffixes := by
  rw [vgm_isErr]
  unfold imageCheck
  rw [h]
  simp only [checkImagePaths]
  exact checkImages_err_iff paths

theorem image_format_strict_check_witness :
    isErr (validate_grailed_metadata
      [("image_paths", Val.list [Val.str "photo.png"])]).1 = true :=
  (image_format_strict_check
      [("image_paths", Val.list [Val.str "photo.png"])] ["photo.png"]
      rfl).mpr
    ⟨"photo.png", by simp, by decide⟩

/-- C8: validation is idempotent on its normalized output — whenever
`validate_grailed_metadata` succeeds with a validated record, validating
that record again succeeds and returns it unchanged (in particular the
color field, copied through both times, is normalized idempotently). -/
theorem validate_idempotent (m v : Metadata)
    (h : (validate_grailed_metadata m).1 = .ok v) :
    (validate_grailed_metadata v).1 = .ok v := by
  obtain ⟨hchk, hv⟩ := vgm_fst_ok m v h
  have hlook : ∀ f : String, f ∈ required_fields ∨ f ∈ optional_fields →
      lookupField v f = lookupField m f := by
    intro f hf
    rw [hv, lookupField_pick_append, if_pos hf]
  have hpickr : pick v required_fields = pick m required_fields :=
    pick_congr m v required_fields (fun f hf => hlook f (Or.inl hf))
  have hpicko : pick v optional_fields = pick m optional_fields :=
    pick_congr m v optional_fields (fun f hf => hlook f (Or.inr hf))
  have hchkv : imageCheck v = .ok () := by
    unfold imageCheck at hchk ⊢
    rw [hlook "image_paths" (Or.inl (by simp [required_fields]))]
    exact hchk
  have h2 : (validate_grailed_metadata v).1 =
      (match imageCheck v with
       | .error e => .error e
       | .ok _ => .ok (pick v required_fields ++ pick v optional_fields)) := by
    rw [vgm_eq]
  rw [h2]
  simp only [hchkv]
  rw [hpickr, hpicko, hv]

theorem validate_idempotent_witness :
    (validate_grailed_metadata
      [("department", Val.str "Menswear"), ("image_paths", Val.list [])]).1 =
    .ok [("department", Val.str "Menswear"), ("image_paths", Val.list [])] :=
  validate_idempotent
    [("department", Val.str "Menswear"), ("image_paths", Val.list [])]
    [("department", Val.str "Menswear"), ("image_paths", Val.list [])] rfl

/-- C9 counterexample: `validate_grailed_metadata` does perform observable
I/O — on the empty record its stdout trace is the eleven printed
missing-required-field warnings, not empty, contradicting "the call
performs no observable I/O". -/
theorem validator_print_effects_cex :
    (validate_grailed_metadata ([] : Metadata)).2 ≠ [] := by
  decide

/-- C9 amended: `validate_grailed_metadata` is deterministic and never
mutates its input — its result is a fresh record assembled purely from
field lookups — and its only observable side effect is printing one
warning line per missing required field; a record with every required
field present produces no output at all. -/
theorem validator_effects_characterized (m : Metadata) :
    (validate_grailed_metadata m).2 = missingWarns m required_fields ∧
    ((∀ f ∈ required_fields, (lookupField m f).isSome) →
      (validate_grailed_metadata m).2 = []) ∧
    (∀ v : Metadata, (validate_grailed_metadata m).1 = .ok v →
      v = pick m required_fields ++ pick m optional_fields) := by
  refine ⟨vgm_snd m, ?_, fun v hv => (vgm_fst_ok m v hv).2⟩
  intro hall
  rw [vgm_snd]
  unfold missingWarns
  rw [List.filterMap_eq_nil_iff]
  intro f hf
  simp [hall f hf]

theorem validator_effects_characterized_witness :
    (validate_grailed_metadata sampleRecord).2 = [] :=
  (validator_effects_characterized sampleRecord).2.1 (by decide)

end Grailed
